import Mathlib

/-!
Shallow embedding of the declarative extraction engine of `src/scraper.py`
(class `WebScraper`): the document model, the path interpreter
(`_extract_field_value`), the container scanner (`_extract_products`),
provenance attachment (`scrape_products`) and configuration validation
(`_validate_config`), together with theorems settling the spec claims.
-/

set_option autoImplicit false

mutual
/-- The parsed HTML tree exposed by the Document Model adapter:
a node is either a text fragment or an element with a tag name,
an attribute list and a list of child nodes. -/
inductive HtmlNode where
  | text (s : String) : HtmlNode
  | elem (tag : String) (attrs : List (String × String)) (children : NodeList) : HtmlNode
/-- A list of sibling nodes. -/
inductive NodeList where
  | nil : NodeList
  | cons (head : HtmlNode) (tail : NodeList) : NodeList
end

/-- Build a child list from a plain list of nodes. -/
def NodeList.ofList : List HtmlNode → NodeList
  | [] => .nil
  | n :: ns => .cons n (NodeList.ofList ns)

/-- Python truthiness of an optional string: `None` and `""` are falsy. -/
def truthy : Option String → Bool
  | none => false
  | some s => s ≠ ""

/-- Python list indexing `xs[i]`: negative indices count from the end,
out-of-range raises `IndexError`. -/
def pyGet {α : Type} (xs : List α) (i : Int) : Except String α :=
  if 0 ≤ i then
    match xs[i.toNat]? with
    | some x => .ok x
    | none => .error "IndexError: list index out of range"
  else
    if 0 ≤ (xs.length : Int) + i then
      match xs[((xs.length : Int) + i).toNat]? with
      | some x => .ok x
      | none => .error "IndexError: list index out of range"
    else .error "IndexError: list index out of range"

/-- Whitespace for stripping, as in `str.strip()`. -/
def isSpaceChar (c : Char) : Bool :=
  c = ' ' || c = Char.ofNat 9 || c = Char.ofNat 10 || c = Char.ofNat 13

/-- `s.strip()`: drop leading and trailing whitespace. -/
def strTrim (s : String) : String :=
  String.mk (((s.data.dropWhile isSpaceChar).reverse.dropWhile isSpaceChar).reverse)

/-- Split a character list on a separator character. -/
def splitChar (c : Char) : List Char → List (List Char)
  | [] => [[]]
  | d :: ds =>
      if d = c then [] :: splitChar c ds
      else
        match splitChar c ds with
        | [] => [[d]]
        | g :: gs => (d :: g) :: gs

/-- `s.split(c)` for a single-character separator. -/
def splitOnChar (c : Char) (s : String) : List String :=
  (splitChar c s.data).map String.mk

/-- Join strings with a separator between consecutive entries. -/
def joinWith (sep : String) : List String → String
  | [] => ""
  | [x] => x
  | x :: xs => x ++ sep ++ joinWith sep xs

/-- Whether the first character of a string is the given character. -/
def strHeadIs (c : Char) (s : String) : Bool :=
  match s.data with
  | [] => false
  | d :: _ => d = c

/-- The attribute list of a node. -/
def HtmlNode.attrs : HtmlNode → List (String × String)
  | .text _ => []
  | .elem _ a _ => a

/-- `element.get(key)`: the value of an attribute, if present. -/
def HtmlNode.attr (n : HtmlNode) (key : String) : Option String :=
  (n.attrs.find? (fun p => p.1 = key)).map (fun p => p.2)

/-- The HTML classes of an element: the `class` attribute split on spaces. -/
def HtmlNode.classes (n : HtmlNode) : List String :=
  (splitOnChar ' ' ((n.attr "class").getD "")).filter (fun s => s ≠ "")

mutual
/-- All element (tag) descendants strictly below one node, in document
(pre-)order, each element followed by its own descendants. -/
def tagsBelow : HtmlNode → List HtmlNode
  | .text _ => []
  | .elem _ _ cs => tagsIn cs
/-- All element descendants at or below the entries of a child list. -/
def tagsIn : NodeList → List HtmlNode
  | .nil => []
  | .cons (.text _) tl => tagsIn tl
  | .cons (.elem t a cs) tl => .elem t a cs :: (tagsIn cs ++ tagsIn tl)
end

mutual
/-- All text fragments below a node, in document order. -/
def textsBelow : HtmlNode → List String
  | .text _ => []
  | .elem _ _ cs => textsIn cs
/-- All text fragments at or below the entries of a child list. -/
def textsIn : NodeList → List String
  | .nil => []
  | .cons (.text s) tl => s :: textsIn tl
  | .cons (.elem _ _ cs) tl => textsIn cs ++ textsIn tl
end

/-- `element.get_text(strip=True)`: all descendant text fragments,
each stripped, empty ones dropped, concatenated. -/
def HtmlNode.getTextStrip (n : HtmlNode) : String :=
  String.join (((textsBelow n).map strTrim).filter (fun s => s ≠ ""))

/-- Whether a node is an element matching a tag filter (when given) and a
class filter (when given; the class must be among the element classes). -/
def matchesQuery (n : HtmlNode) (tag : Option String) (cls : Option String) : Bool :=
  (match n, tag with
   | .text _, _ => false
   | .elem _ _ _, none => true
   | .elem t _ _, some tg => t = tg)
  && (match cls with
      | none => true
      | some c => (n.classes).any (fun s => s = c))

/-- `element.find_all(tag, class_=cls)`: all matching descendants of the
element, in document order. -/
def bsFindAll (n : HtmlNode) (tag : Option String) (cls : Option String) : List HtmlNode :=
  (tagsBelow n).filter (fun d => matchesQuery d tag cls)

/-- `element.find(tag, class_=cls)`: the first matching descendant, if any. -/
def bsFind (n : HtmlNode) (tag : Option String) (cls : Option String) : Option HtmlNode :=
  (bsFindAll n tag cls).head?

/-- One navigation step of a field path, mirroring the step dictionary
(`type` / `tag` / `class` / `index` keys, each possibly absent). -/
structure PathStep where
  type_ : Option String := none
  tag : Option String := none
  class_ : Option String := none
  index : Option Int := none
deriving DecidableEq

/-- One field specification, mirroring the field dictionary
(`path` defaulting to `[]`, `extract` defaulting to `"text"`). -/
structure FieldSpec where
  path : List PathStep := []
  extract : Option String := none
deriving DecidableEq

/-- One iteration of the step loop of `_extract_field_value` (lines 162-183
of `scraper.py`) on a present current element: a `find` step takes the first
match, a `find_all` step indexes into the match list with Python indexing
guarded by `elements and len(elements) > index`, and any other step type
leaves the element unchanged. -/
def runStep (element : HtmlNode) (step : PathStep) : Except String (Option HtmlNode) :=
  let step_type := step.type_
  let tag := step.tag
  let class_name := step.class_
  if step_type = some "find" then
    .ok (if truthy class_name then bsFind element tag class_name else bsFind element tag none)
  else if step_type = some "find_all" then
    let elements := if truthy class_name then bsFindAll element tag class_name
                    else bsFindAll element tag none
    let index := (step.index).getD 0
    if elements.length ≠ 0 ∧ index < (elements.length : Int) then
      (pyGet elements index).map some
    else
      .ok none
  else
    .ok (some element)

/-- The step loop of `_extract_field_value`: steps applied in order, with the
`if not element: break` short-circuit once the current element is absent. -/
def resolvePath : Option HtmlNode → List PathStep → Except String (Option HtmlNode)
  | element, [] => .ok element
  | none, _ :: _ => .ok none
  | some e, step :: rest => do
      let e2 ← runStep e step
      resolvePath e2 rest

/-- Modelled from the spec: the standard URL-reference resolution performed
by `urllib.parse.urljoin` (standard library, outside `src/`): the schemes
that admit relative references. -/
def usesRelative : List String :=
  ["", "ftp", "http", "gopher", "nntp", "imap", "wais", "file", "https",
   "shttp", "mms", "prospero", "rtsp", "rtspu", "sftp", "svn", "ws", "wss"]

/-- Modelled from the spec: schemes that carry a network location. -/
def usesNetloc : List String :=
  ["", "ftp", "http", "gopher", "nntp", "telnet", "imap", "wais", "file",
   "mms", "https", "shttp", "snews", "prospero", "rtsp", "rtspu", "rsync",
   "svn", "sftp", "nfs", "git", "ws", "wss"]

/-- A split URL: scheme, network location, path, query and fragment, the
empty string standing for an absent component. -/
structure Url where
  scheme : String
  netloc : String
  path : String
  query : String
  fragment : String
deriving DecidableEq

/-- Characters allowed in a URL scheme after the first letter. -/
def isSchemeChar (c : Char) : Bool :=
  c.isAlphanum || c = '+' || c = '-' || c = '.'

/-- Split a character list at the first character from a stop list. -/
def takeUntil (stop : List Char) : List Char → List Char × List Char
  | [] => ([], [])
  | c :: cs =>
      if stop.any (fun d => d = c) then ([], c :: cs)
      else
        let (a, b) := takeUntil stop cs
        (c :: a, b)

/-- Modelled from the spec: scheme extraction of `urllib.parse.urlsplit`:
a valid scheme before the first colon is recognised and lower-cased. -/
def schemeSplit (cs : List Char) : String × List Char :=
  let (pre, post) := takeUntil [':'] cs
  match post with
  | _ :: rest =>
      if pre ≠ [] ∧ pre.all isSchemeChar ∧ ((pre.head?.map Char.isAlpha).getD false) then
        (String.mk (pre.map Char.toLower), rest)
      else
        ("", cs)
  | [] => ("", cs)

/-- Modelled from the spec: network-location extraction of
`urllib.parse.urlsplit`: after `//`, up to the next `/`, `?` or `#`. -/
def netlocSplit (cs : List Char) : String × List Char :=
  match cs with
  | '/' :: '/' :: rest =>
      let (nl, rest2) := takeUntil ['/', '?', '#'] rest
      (String.mk nl, rest2)
  | _ => ("", cs)

/-- Modelled from the spec: `urllib.parse.urlsplit` on the component model
where the empty string denotes an absent component. -/
def urlsplit (s : String) : Url :=
  let (scheme, r1) := schemeSplit s.data
  let (netloc, r2) := netlocSplit r1
  let (pathCs, r3) := takeUntil ['?', '#'] r2
  let (query, fragment) :=
    match r3 with
    | '?' :: r4 =>
        let (q, r5) := takeUntil ['#'] r4
        (String.mk q,
         match r5 with
         | _ :: r6 => String.mk r6
         | [] => "")
    | '#' :: r4 => ("", String.mk r4)
    | _ => ("", "")
  { scheme := scheme, netloc := netloc, path := String.mk pathCs,
    query := query, fragment := fragment }

/-- Modelled from the spec: reassembly of a split URL
(`urllib.parse.urlunsplit`). -/
def urlunsplit (u : Url) : String :=
  (if u.scheme ≠ "" then u.scheme ++ ":" else "") ++
  (if u.netloc ≠ "" then "//" ++ u.netloc else "") ++
  u.path ++
  (if u.query ≠ "" then "?" ++ u.query else "") ++
  (if u.fragment ≠ "" then "#" ++ u.fragment else "")

/-- Keep the last path segment, dropping empty ones before it
(they would produce redundant slashes on rejoining). -/
def midAux : List String → List String
  | [] => []
  | [y] => [y]
  | y :: rest => if y = "" then midAux rest else y :: midAux rest

/-- Apply `midAux` to everything after the first segment. -/
def midFilter : List String → List String
  | [] => []
  | [x] => [x]
  | x :: rest => x :: midAux rest

/-- Resolve `.` and `..` path segments against an accumulator
(a `..` on an empty accumulator is ignored). -/
def resolveSegs (segs : List String) (acc : List String) : List String :=
  match segs with
  | [] => acc
  | seg :: rest =>
      if seg = ".." then resolveSegs rest acc.dropLast
      else if seg = "." then resolveSegs rest acc
      else resolveSegs rest (acc ++ [seg])

/-- Modelled from the spec: `urllib.parse.urljoin` — standard URL-reference
resolution of a (possibly relative) reference against a base URL: relative
references become absolute, already-absolute references pass through. -/
def urljoin (base url : String) : String :=
  if base = "" then url
  else if url = "" then base
  else
    let b := urlsplit base
    let r := urlsplit url
    let scheme := if r.scheme = "" then b.scheme else r.scheme
    if scheme ≠ b.scheme ∨ ¬ usesRelative.any (fun s => s = scheme) then url
    else if usesNetloc.any (fun s => s = scheme) ∧ r.netloc ≠ "" then
      urlunsplit { scheme := scheme, netloc := r.netloc, path := r.path,
                   query := r.query, fragment := r.fragment }
    else
      let netloc := if usesNetloc.any (fun s => s = scheme) then b.netloc else r.netloc
      if r.path = "" then
        urlunsplit { scheme := scheme, netloc := netloc, path := b.path,
                     query := if r.query = "" then b.query else r.query,
                     fragment := r.fragment }
      else
        let segments :=
          if strHeadIs '/' r.path then splitOnChar '/' r.path
          else
            let basePartsAll := splitOnChar '/' b.path
            let baseParts :=
              if basePartsAll.getLast? ≠ some "" then basePartsAll.dropLast
              else basePartsAll
            midFilter (baseParts ++ splitOnChar '/' r.path)
        let resolved := resolveSegs segments []
        let resolved2 :=
          if segments.getLast? = some "." ∨ segments.getLast? = some ".." then
            resolved ++ [""]
          else resolved
        let joined := joinWith "/" resolved2
        urlunsplit { scheme := scheme, netloc := netloc,
                     path := if joined = "" then "/" else joined,
                     query := r.query, fragment := r.fragment }

/-- The terminal value dispatch of `_extract_field_value` (lines 188-203):
`text` mode returns stripped text, `href` mode joins a truthy `href`
attribute with the base URL, any other mode reads that attribute,
falsy attribute values yielding the sentinel. -/
def valueExtract (element : HtmlNode) (extract_type : String) (base_url : String) : String :=
  if extract_type = "text" then
    element.getTextStrip
  else if extract_type = "href" then
    if truthy (element.attr "href") then urljoin base_url ((element.attr "href").getD "")
    else "N/A"
  else
    if truthy (element.attr extract_type) then (element.attr extract_type).getD ""
    else "N/A"

/-- `WebScraper._extract_field_value` (lines 154-203): resolve the path from
the container, return the sentinel when the terminal element is absent,
otherwise dispatch on the extraction mode (`extract` defaulting to `text`). -/
def extractFieldValue (container : HtmlNode) (field_config : FieldSpec) (base_url : String) : Except String String := do
  let element ← resolvePath (some container) field_config.path
  match element with
  | none => pure "N/A"
  | some el => pure (valueExtract el ((field_config.extract).getD "text") base_url)

/-- The per-field try/except of `_extract_products` (lines 139-147): any
exception from `_extract_field_value` becomes the sentinel for that field. -/
def extractFieldSafe (container : HtmlNode) (field_config : FieldSpec) (base_url : String) : String :=
  match extractFieldValue container field_config base_url with
  | .ok value => value
  | .error _ => "N/A"

/-- A Python dictionary with string keys and values, as an insertion-ordered
association list. -/
abbrev PyDict := List (String × String)

/-- `k in d` for a Python dictionary. -/
def hasKey (d : PyDict) (k : String) : Bool :=
  d.any (fun p => p.1 = k)

/-- `d[k] = v` for a Python dictionary: update in place when the key exists,
append otherwise. -/
def dictSet (d : PyDict) (k v : String) : PyDict :=
  if hasKey d k then d.map (fun p => if p.1 = k then (k, v) else p)
  else d ++ [(k, v)]

/-- `d.get(k)` for a Python dictionary. -/
def dictGet (d : PyDict) (k : String) : Option String :=
  (d.find? (fun p => p.1 = k)).map (fun p => p.2)

/-- The record-assembly loop of `_extract_products` (lines 137-147): one
entry per configured field, in configuration order. -/
def buildProduct (container : HtmlNode) (fields : List (String × FieldSpec)) (base_url : String) : PyDict :=
  fields.foldl
    (fun product fp => dictSet product fp.1 (extractFieldSafe container fp.2 base_url)) []

/-- `WebScraper._extract_products` (lines 123-152): scan the document for
`div` containers of the configured class, assemble one record per container
and keep exactly the records with some non-sentinel value. -/
def extract_products (soup : HtmlNode) (container_class : String) (fields : List (String × FieldSpec)) (base_url : String) : List PyDict :=
  ((bsFindAll soup (some "div") (some container_class)).map
    (fun container => buildProduct container fields base_url)).filter
    (fun product => product.any (fun p => p.2 ≠ "N/A"))

/-- A raw scraper configuration, mirroring the configuration dictionary:
each top-level key possibly absent. -/
structure RawConfig where
  container_class : Option String := none
  fields : Option (List (String × FieldSpec)) := none
  name : Option String := none
deriving DecidableEq

/-- `WebScraper._validate_config` (lines 235-245): reject a configuration
missing `container_class` or `fields`, checked in that order. -/
def validate_config (config : RawConfig) : Except String RawConfig :=
  if (config.container_class).isNone then
    .error "Clave requerida container_class no encontrada en la configuracion del scraper"
  else if (config.fields).isNone then
    .error "Clave requerida fields no encontrada en la configuracion del scraper"
  else
    .ok config

/-- The metadata attachment of `scrape_products` (lines 109-114): the three
provenance keys, `_config_used` falling back to `default_config` when the
configuration has no `name` key. -/
def attachMetadata (product : PyDict) (url : String) (scraped_at : String) (config_name : Option String) : PyDict :=
  dictSet (dictSet (dictSet product "_source_url" url) "_scraped_at" scraped_at)
    "_config_used"
    (match config_name with
     | some n => n
     | none => "default_config")

/-- The extraction core of `WebScraper.scrape_products` (lines 103-116) on an
already-fetched document: extract the products and attach provenance
metadata, the timestamp passed in as a parameter. -/
def scrape_products_core (soup : HtmlNode) (config : RawConfig) (url : String) (scraped_at : String) : List PyDict :=
  (extract_products soup ((config.container_class).getD "")
      ((config.fields).getD []) url).map
    (fun product => attachMetadata product url scraped_at config.name)

/-- The match list of a `find_all` step (lines 175-179 of `scraper.py`):
the class filter applies only when the class name is truthy. -/
def stepElements (element : HtmlNode) (tag cls : Option String) : List HtmlNode :=
  if truthy cls then bsFindAll element tag cls else bsFindAll element tag none

/-! Concrete fixtures used to instantiate the theorems. -/

/-- A span element holding the text `" hello "`. -/
def spanHello : HtmlNode := .elem "span" [] (.cons (.text " hello ") .nil)

/-- An anchor with a relative link. -/
def anchorItem : HtmlNode := .elem "a" [("href", "item/42")] .nil

/-- A product-card container with a span and an anchor. -/
def cardDiv : HtmlNode :=
  .elem "div" [("class", "card")] (.cons spanHello (.cons anchorItem .nil))

/-- A document holding one card container. -/
def docOne : HtmlNode := .elem "html" [] (.cons cardDiv .nil)

/-- A childless card container. -/
def emptyDiv : HtmlNode := .elem "div" [("class", "card")] .nil

/-- An anchor whose `href` attribute is present but empty. -/
def anchorEmptyHref : HtmlNode := .elem "a" [("href", "")] .nil

/-- A field fetching the text of the first span. -/
def titleSpec : FieldSpec := { path := [{ type_ := some "find", tag := some "span" }] }

/-- A field fetching the resolved link of the first anchor. -/
def linkSpec : FieldSpec :=
  { path := [{ type_ := some "find", tag := some "a" }], extract := some "href" }

/-- A field whose `find_all` index is negative and far out of range, so that
indexing raises. -/
def badIndexSpec : FieldSpec :=
  { path := [{ type_ := some "find_all", tag := some "span", index := some (-5) }] }

/-! ## Helper lemmas -/

theorem resolvePath_none (steps : List PathStep) : resolvePath none steps = .ok none := by
  cases steps <;> rfl

theorem resolvePath_cons (e : HtmlNode) (step : PathStep) (rest : List PathStep) :
    resolvePath (some e) (step :: rest)
      = (runStep e step).bind (fun e2 => resolvePath e2 rest) := rfl

theorem resolvePath_append (pre post : List PathStep) :
    ∀ e, resolvePath e (pre ++ post)
      = (resolvePath e pre).bind (fun x => resolvePath x post) := by
  induction pre with
  | nil => intro e; cases e <;> rfl
  | cons step rest ih =>
      intro e
      cases e with
      | none => simp [resolvePath_none, Except.bind]
      | some v =>
          rw [List.cons_append, resolvePath_cons, resolvePath_cons]
          cases hrs : runStep v step with
          | error err => rfl
          | ok e2 => exact ih e2

/-- `extractFieldValue` unfolded at its top-level bind. -/
theorem extractFieldValue_eq (container : HtmlNode) (field_config : FieldSpec) (base_url : String) :
    extractFieldValue container field_config base_url
      = (resolvePath (some container) field_config.path).bind
          (fun element =>
            match element with
            | none => .ok "N/A"
            | some el => .ok (valueExtract el ((field_config.extract).getD "text") base_url)) := rfl

/-! ## Claim theorems -/

/-- C6: for a field spec whose path list is empty, the resolver returns the
container element itself unchanged, and the value is extracted directly from
the container element. -/
theorem claim_C6 (container : HtmlNode) (extract : Option String) (base_url : String) :
    resolvePath (some container) [] = .ok (some container)
    ∧ extractFieldValue container { path := [], extract := extract } base_url
        = .ok (valueExtract container (extract.getD "text") base_url) :=
  ⟨rfl, rfl⟩

/-- C8: a configuration missing `container_class` or `fields` is rejected by
`_validate_config` (hence at session construction) with an error. -/
theorem claim_C8 (config : RawConfig)
    (h : config.container_class = none ∨ config.fields = none) :
    ∃ msg, validate_config config = .error msg := by
  rcases h with h | h
  · unfold validate_config
    rw [h]
    exact ⟨_, rfl⟩
  · unfold validate_config
    rw [h]
    split
    · exact ⟨_, rfl⟩
    · exact ⟨_, rfl⟩

theorem claim_C8_witness :
    ∃ msg, validate_config { fields := some [] } = .error msg :=
  claim_C8 { fields := some [] } (Or.inl rfl)

/-- C9 counterexample: a configuration whose `container_class` is the empty
string and whose `fields` mapping is empty is accepted by `_validate_config`,
not rejected as the claim states. -/
theorem claim_C9_counterexample :
    validate_config { container_class := some "", fields := some ([] : List (String × FieldSpec)) }
      = .ok { container_class := some "", fields := some [] }
    ∧ ¬ ∃ msg,
        validate_config { container_class := some "", fields := some ([] : List (String × FieldSpec)) }
          = .error msg := by
  refine ⟨rfl, ?_⟩
  rintro ⟨msg, hmsg⟩
  simp [validate_config] at hmsg

/-- C9 (amended): session construction checks only that `container_class` and
`fields` are present; a configuration with both keys present is accepted
unchanged, even when their values are empty. -/
theorem claim_C9 (config : RawConfig)
    (h1 : (config.container_class).isSome = true) (h2 : (config.fields).isSome = true) :
    validate_config config = .ok config := by
  obtain ⟨a, ha⟩ := Option.isSome_iff_exists.mp h1
  obtain ⟨b, hb⟩ := Option.isSome_iff_exists.mp h2
  simp [validate_config, ha, hb]

theorem claim_C9_witness :
    validate_config { container_class := some "", fields := some ([] : List (String × FieldSpec)) }
      = .ok { container_class := some "", fields := some [] } :=
  claim_C9 { container_class := some "", fields := some [] } rfl rfl

/-- C10: a path step whose type is neither `find` nor `find_all` (including a
step with no type at all) leaves the current element unchanged and acts as a
no-op hop in the path. -/
theorem claim_C10 (element : HtmlNode) (step : PathStep) (rest : List PathStep)
    (h1 : step.type_ ≠ some "find") (h2 : step.type_ ≠ some "find_all") :
    runStep element step = .ok (some element)
    ∧ resolvePath (some element) (step :: rest) = resolvePath (some element) rest := by
  have hr : runStep element step = .ok (some element) := by
    simp [runStep, h1, h2]
  refine ⟨hr, ?_⟩
  rw [resolvePath_cons, hr]
  rfl

theorem claim_C10_witness :
    runStep emptyDiv { tag := some "span" } = .ok (some emptyDiv)
    ∧ resolvePath (some emptyDiv)
        (({ tag := some "span" } : PathStep) :: [{ type_ := some "find", tag := some "span" }])
      = resolvePath (some emptyDiv) [{ type_ := some "find", tag := some "span" }] :=
  claim_C10 emptyDiv { tag := some "span" } [{ type_ := some "find", tag := some "span" }]
    (by decide) (by decide)

/-- C5: once path resolution reaches NotFound at an intermediate point, the
remaining steps are not applied and the field value is the `N/A` sentinel
whatever the configured extraction mode. -/
theorem claim_C5 (container : HtmlNode) (pre post : List PathStep)
    (extract : Option String) (base_url : String)
    (h : resolvePath (some container) pre = .ok none) :
    resolvePath (some container) (pre ++ post) = .ok none
    ∧ extractFieldValue container { path := pre ++ post, extract := extract } base_url
        = .ok "N/A" := by
  have h1 : resolvePath (some container) (pre ++ post) = .ok none := by
    rw [resolvePath_append, h]
    exact resolvePath_none post
  refine ⟨h1, ?_⟩
  rw [extractFieldValue_eq]
  rw [h1]
  rfl

theorem claim_C5_witness :
    resolvePath (some emptyDiv)
        ([{ type_ := some "find", tag := some "span" }] ++ [{ type_ := some "find", tag := some "b" }])
      = .ok none
    ∧ extractFieldValue emptyDiv
        { path := [{ type_ := some "find", tag := some "span" }] ++ [{ type_ := some "find", tag := some "b" }],
          extract := some "href" } "https://x.example/"
      = .ok "N/A" :=
  claim_C5 emptyDiv [{ type_ := some "find", tag := some "span" }]
    [{ type_ := some "find", tag := some "b" }] (some "href") "https://x.example/" rfl

/-- `pyGet` on a non-negative in-range index. -/
theorem pyGet_nonneg {α : Type} (xs : List α) (i : Int) (h0 : 0 ≤ i)
    (h : i.toNat < xs.length) :
    (pyGet xs i).map some = .ok xs[i.toNat]? := by
  unfold pyGet
  rw [if_pos h0, List.getElem?_eq_getElem h]
  rfl

/-- `pyGet` on a negative index still counting into the list. -/
theorem pyGet_neg {α : Type} (xs : List α) (i : Int) (hneg : i < 0)
    (h0 : 0 ≤ (xs.length : Int) + i) (h : ((xs.length : Int) + i).toNat < xs.length) :
    (pyGet xs i).map some = .ok xs[((xs.length : Int) + i).toNat]? := by
  unfold pyGet
  rw [if_neg (by omega), if_pos h0, List.getElem?_eq_getElem h]
  rfl

/-- `pyGet` on a negative index below the start of the list raises. -/
theorem pyGet_neg_oob {α : Type} (xs : List α) (i : Int) (hneg : i < 0)
    (hlt : (xs.length : Int) + i < 0) :
    pyGet xs i = .error "IndexError: list index out of range" := by
  unfold pyGet
  rw [if_neg (by omega), if_neg (by omega)]

/-- `runStep` on a `find_all` step, unfolded to its guarded indexing. -/
theorem runStep_find_all (element : HtmlNode) (tg cl : Option String) (i : Int) :
    runStep element { type_ := some "find_all", tag := tg, class_ := cl, index := some i }
      = if (stepElements element tg cl).length ≠ 0
            ∧ i < ((stepElements element tg cl).length : Int) then
          (pyGet (stepElements element tg cl) i).map some
        else .ok none := rfl

/-- C3 (amended): a `find_all` step with a non-negative index yields the
match at that zero-based index when the match list is longer, and NotFound
when the index is at or past the end or the match list is empty; a negative
index on a non-empty match list selects from the end of the list (Python
indexing), and raises an index error — caught at the field level — when it
reaches below the start. -/
theorem claim_C3 (element : HtmlNode) (tg cl : Option String) (i : Int) :
    (0 ≤ i → i < ((stepElements element tg cl).length : Int) →
      runStep element { type_ := some "find_all", tag := tg, class_ := cl, index := some i }
        = .ok (stepElements element tg cl)[i.toNat]?)
    ∧ (((stepElements element tg cl).length : Int) ≤ i →
      runStep element { type_ := some "find_all", tag := tg, class_ := cl, index := some i }
        = .ok none)
    ∧ (stepElements element tg cl = [] →
      runStep element { type_ := some "find_all", tag := tg, class_ := cl, index := some i }
        = .ok none)
    ∧ (i < 0 → stepElements element tg cl ≠ [] →
        0 ≤ ((stepElements element tg cl).length : Int) + i →
      runStep element { type_ := some "find_all", tag := tg, class_ := cl, index := some i }
        = .ok (stepElements element tg cl)[(((stepElements element tg cl).length : Int) + i).toNat]?)
    ∧ (i < 0 → stepElements element tg cl ≠ [] →
        ((stepElements element tg cl).length : Int) + i < 0 →
      runStep element { type_ := some "find_all", tag := tg, class_ := cl, index := some i }
        = .error "IndexError: list index out of range") := by
  refine ⟨?_, ?_, ?_, ?_, ?_⟩
  · intro h0 hlt
    rw [runStep_find_all, if_pos ⟨by omega, hlt⟩]
    exact pyGet_nonneg _ i h0 (by omega)
  · intro hge
    rw [runStep_find_all, if_neg]
    rintro ⟨-, hlt⟩
    omega
  · intro hnil
    rw [runStep_find_all, if_neg]
    rintro ⟨hlen, -⟩
    rw [hnil] at hlen
    exact hlen rfl
  · intro hneg hne h0
    have hlen : stepElements element tg cl ≠ [] → (stepElements element tg cl).length ≠ 0 := by
      intro h
      simpa [List.length_eq_zero] using h
    rw [runStep_find_all, if_pos ⟨hlen hne, by omega⟩]
    exact pyGet_neg _ i hneg h0 (by omega)
  · intro hneg hne hlt
    have hlen : (stepElements element tg cl).length ≠ 0 := by
      simpa [List.length_eq_zero] using hne
    rw [runStep_find_all, if_pos ⟨hlen, by omega⟩, pyGet_neg_oob _ i hneg hlt]
    rfl

/-- C3 counterexample: a `find_all` step with index `-1` on a container with
one matching span yields that span (Python end-relative indexing) and the
field value `"hello"`, not the NotFound sentinel the claim requires for
every negative index. -/
theorem claim_C3_counterexample :
    runStep cardDiv { type_ := some "find_all", tag := some "span", index := some (-1) }
      = .ok (some spanHello)
    ∧ extractFieldValue cardDiv
        { path := [{ type_ := some "find_all", tag := some "span", index := some (-1) }] }
        "https://x.example/"
      = .ok "hello"
    ∧ ("hello" : String) ≠ "N/A" :=
  ⟨rfl, rfl, by decide⟩

theorem claim_C3_witness :
    runStep cardDiv { type_ := some "find_all", tag := some "span", class_ := none, index := some 0 }
      = .ok (stepElements cardDiv (some "span") none)[(0 : Int).toNat]?
    ∧ runStep cardDiv { type_ := some "find_all", tag := some "span", class_ := none, index := some (-5) }
      = .error "IndexError: list index out of range" :=
  ⟨(claim_C3 cardDiv (some "span") none 0).1 (by decide) (by decide),
   (claim_C3 cardDiv (some "span") none (-5)).2.2.2.2 (by decide)
     (List.cons_ne_nil _ _) (by decide)⟩

/-- C4 (amended): in `href` mode, a terminal element with a non-empty `href`
attribute yields that attribute resolved against the base URL by standard
URL-reference resolution (relative references become absolute, absolute ones
pass through unchanged); an absent — or present but empty — `href` attribute
yields the sentinel. -/
theorem claim_C4 (container : HtmlNode) (steps : List PathStep) (base_url : String)
    (el : HtmlNode) (hres : resolvePath (some container) steps = .ok (some el)) :
    (∀ h, el.attr "href" = some h → h ≠ "" →
        extractFieldValue container { path := steps, extract := some "href" } base_url
          = .ok (urljoin base_url h))
    ∧ (el.attr "href" = none ∨ el.attr "href" = some "" →
        extractFieldValue container { path := steps, extract := some "href" } base_url
          = .ok "N/A")
    ∧ urljoin "https://shop.example/cat/" "item/42" = "https://shop.example/cat/item/42"
    ∧ urljoin "https://shop.example/cat/" "https://cdn.example/x" = "https://cdn.example/x" := by
  refine ⟨?_, ?_, rfl, rfl⟩
  · intro h hh hne
    rw [extractFieldValue_eq, hres]
    show Except.ok (valueExtract el "href" base_url) = .ok (urljoin base_url h)
    simp [valueExtract, hh, truthy, hne]
  · intro hor
    rw [extractFieldValue_eq, hres]
    show Except.ok (valueExtract el "href" base_url) = .ok "N/A"
    rcases hor with hh | hh <;> simp [valueExtract, hh, truthy]

/-- C4 counterexample: an element whose `href` attribute is present but
empty: standard resolution of the empty reference gives the base URL back,
but the code returns the sentinel instead. -/
theorem claim_C4_counterexample :
    anchorEmptyHref.attr "href" = some ""
    ∧ extractFieldValue anchorEmptyHref { path := [], extract := some "href" }
        "https://shop.example/cat/"
      = .ok "N/A"
    ∧ urljoin "https://shop.example/cat/" "" = "https://shop.example/cat/"
    ∧ ("N/A" : String) ≠ "https://shop.example/cat/" :=
  ⟨rfl, rfl, rfl, by decide⟩

theorem claim_C4_witness :
    extractFieldValue cardDiv linkSpec "https://shop.example/cat/"
      = .ok (urljoin "https://shop.example/cat/" "item/42") :=
  (claim_C4 cardDiv linkSpec.path "https://shop.example/cat/" anchorItem rfl).1
    "item/42" rfl (by decide)

/-! ## Dictionary lemmas -/

theorem hasKey_eq_keys_any (d : PyDict) (k : String) :
    hasKey d k = (d.map Prod.fst).any (fun s => s = k) := by
  induction d with
  | nil => rfl
  | cons q rest ih => simp [hasKey, List.any_cons, List.map_cons] at ih ⊢; rw [ih]

theorem keys_map_dictSet (d : PyDict) (k0 v : String) :
    (d.map (fun p => if p.1 = k0 then (k0, v) else p)).map Prod.fst = d.map Prod.fst := by
  induction d with
  | nil => rfl
  | cons q rest ih => by_cases h : q.1 = k0 <;> simp [h, ih]

theorem hasKey_dictSet (d : PyDict) (k0 v k : String) :
    hasKey (dictSet d k0 v) k = (hasKey d k || decide (k = k0)) := by
  unfold dictSet
  by_cases h : hasKey d k0 = true
  · rw [if_pos h, hasKey_eq_keys_any, keys_map_dictSet, ← hasKey_eq_keys_any]
    by_cases hk : k = k0
    · subst hk
      simp [h]
    · simp [hk]
  · rw [if_neg h]
    simp [hasKey, List.any_append, eq_comm]

theorem find_map_update (d : PyDict) (k v : String) (h : hasKey d k = true) :
    (d.map (fun p => if p.1 = k then (k, v) else p)).find? (fun p => p.1 = k)
      = some (k, v) := by
  induction d with
  | nil => simp [hasKey] at h
  | cons q rest ih =>
      by_cases hq : q.1 = k
      · rw [List.map_cons, if_pos hq, List.find?_cons_of_pos]
        simp
      · have h2 : hasKey rest k = true := by
          simp [hasKey, List.any_cons, hq] at h
          simpa [hasKey] using h
        rw [List.map_cons, if_neg hq, List.find?_cons_of_neg]
        · exact ih h2
        · simpa using hq

theorem dictGet_dictSet_self (d : PyDict) (k v : String) :
    dictGet (dictSet d k v) k = some v := by
  unfold dictSet
  by_cases h : hasKey d k = true
  · rw [if_pos h]
    unfold dictGet
    rw [find_map_update d k v h]
    rfl
  · rw [if_neg h]
    have hnone : d.find? (fun p => p.1 = k) = none := by
      rw [List.find?_eq_none]
      intro x hx
      simp only [decide_eq_true_eq]
      intro hxk
      apply h
      simp only [hasKey, List.any_eq_true, decide_eq_true_eq]
      exact ⟨x, hx, hxk⟩
    unfold dictGet
    rw [List.find?_append, hnone]
    simp

/-! ## Record-assembly lemmas -/

theorem buildProduct_aux (container : HtmlNode) (base_url : String) :
    ∀ (fields : List (String × FieldSpec)) (init : PyDict),
      (∀ p ∈ fields, hasKey init p.1 = false) → (fields.map Prod.fst).Nodup →
      fields.foldl
          (fun product fp => dictSet product fp.1 (extractFieldSafe container fp.2 base_url)) init
        = init ++ fields.map (fun p => (p.1, extractFieldSafe container p.2 base_url)) := by
  intro fields
  induction fields with
  | nil => intro init _ _; simp
  | cons q rest ih =>
      intro init hfree hnd
      rw [List.foldl_cons]
      have hq : hasKey init q.1 = false := hfree q (List.mem_cons_self _ _)
      have hset : dictSet init q.1 (extractFieldSafe container q.2 base_url)
          = init ++ [(q.1, extractFieldSafe container q.2 base_url)] := by
        unfold dictSet
        rw [if_neg (by simp [hq])]
      rw [hset, ih]
      · simp
      · intro p hp
        have hys : hasKey init p.1 = false := hfree p (List.mem_cons_of_mem _ hp)
        have hne : p.1 ≠ q.1 := by
          have hnin : q.1 ∉ rest.map Prod.fst := (List.nodup_cons.mp (by simpa using hnd)).1
          intro he
          exact hnin (he ▸ List.mem_map_of_mem Prod.fst hp)
        have hne2 : ¬ q.1 = p.1 := fun he => hne he.symm
        simp only [hasKey] at hys ⊢
        simp [List.any_append, hys, hne2]
      · exact (List.nodup_cons.mp (by simpa using hnd)).2

theorem buildProduct_eq_map (container : HtmlNode) (base_url : String)
    (fields : List (String × FieldSpec)) (hnd : (fields.map Prod.fst).Nodup) :
    buildProduct container fields base_url
      = fields.map (fun p => (p.1, extractFieldSafe container p.2 base_url)) := by
  have h := buildProduct_aux container base_url fields [] (by intro p _; rfl) hnd
  simpa [buildProduct] using h

theorem dictGet_fields_map (container : HtmlNode) (base_url : String) :
    ∀ (fields : List (String × FieldSpec)) (p : String × FieldSpec),
      (fields.map Prod.fst).Nodup → p ∈ fields →
      dictGet (fields.map (fun q => (q.1, extractFieldSafe container q.2 base_url))) p.1
        = some (extractFieldSafe container p.2 base_url) := by
  intro fields
  induction fields with
  | nil => intro p _ hp; cases hp
  | cons q rest ih =>
      intro p hnd hp
      rcases List.mem_cons.mp hp with he | hp2
      · subst he
        unfold dictGet
        rw [List.map_cons, List.find?_cons_of_pos]
        · rfl
        · simp
      · have hne : q.1 ≠ p.1 := by
          have hnin : q.1 ∉ rest.map Prod.fst := (List.nodup_cons.mp (by simpa using hnd)).1
          intro he
          exact hnin (he ▸ List.mem_map_of_mem Prod.fst hp2)
        have hrest := ih p (List.nodup_cons.mp (by simpa using hnd)).2 hp2
        unfold dictGet at hrest ⊢
        rw [List.map_cons, List.find?_cons_of_neg]
        · exact hrest
        · simpa using hne

theorem hasKey_buildProduct_aux (container : HtmlNode) (base_url : String) (k : String) :
    ∀ (fields : List (String × FieldSpec)) (init : PyDict),
      hasKey (fields.foldl
          (fun product fp => dictSet product fp.1 (extractFieldSafe container fp.2 base_url)) init) k
        = (hasKey init k || fields.any (fun p => decide (p.1 = k))) := by
  intro fields
  induction fields with
  | nil => intro init; simp
  | cons q rest ih =>
      intro init
      rw [List.foldl_cons, ih, hasKey_dictSet]
      by_cases hk : k = q.1
      · subst hk
        simp
      · have hk2 : ¬ q.1 = k := fun he => hk he.symm
        simp [hk, hk2, Bool.or_assoc]

theorem hasKey_buildProduct (container : HtmlNode) (base_url : String)
    (fields : List (String × FieldSpec)) (k : String) :
    hasKey (buildProduct container fields base_url) k
      = fields.any (fun p => decide (p.1 = k)) := by
  have h := hasKey_buildProduct_aux container base_url k fields []
  simpa [buildProduct, hasKey] using h

theorem hasKey_attachMetadata (product : PyDict) (url scraped_at : String)
    (config_name : Option String) (k : String) :
    hasKey (attachMetadata product url scraped_at config_name) k
      = (hasKey product k || decide (k = "_source_url") || decide (k = "_scraped_at")
          || decide (k = "_config_used")) := by
  unfold attachMetadata
  rw [hasKey_dictSet, hasKey_dictSet, hasKey_dictSet]

/-! ## Remaining claim theorems -/

theorem any_sentinel_map (container : HtmlNode) (base_url : String)
    (fields : List (String × FieldSpec)) :
    ((fields.map (fun p => (p.1, extractFieldSafe container p.2 base_url))).any
        (fun p => p.2 ≠ "N/A")) = true
      ↔ ∃ p ∈ fields, extractFieldSafe container p.2 base_url ≠ "N/A" := by
  induction fields with
  | nil => simp
  | cons q rest ih =>
      rw [List.map_cons, List.any_cons, Bool.or_eq_true, ih]
      simp [List.mem_cons]

/-- C1: a container record is kept by `_extract_products` exactly when some
configured field has a non-sentinel value, and a kept record carries every
configured field key, failed fields holding the sentinel. -/
theorem claim_C1 (soup : HtmlNode) (container_class base_url : String)
    (fields : List (String × FieldSpec)) (hnd : (fields.map Prod.fst).Nodup)
    (container : HtmlNode)
    (hc : container ∈ bsFindAll soup (some "div") (some container_class)) :
    (buildProduct container fields base_url
        ∈ extract_products soup container_class fields base_url
      ↔ ∃ p ∈ fields, extractFieldSafe container p.2 base_url ≠ "N/A")
    ∧ ∀ p ∈ fields,
        dictGet (buildProduct container fields base_url) p.1
          = some (extractFieldSafe container p.2 base_url) := by
  have hbp := buildProduct_eq_map container base_url fields hnd
  constructor
  · unfold extract_products
    rw [List.mem_filter]
    constructor
    · rintro ⟨-, hpred⟩
      rw [hbp] at hpred
      exact (any_sentinel_map container base_url fields).mp hpred
    · intro hex
      refine ⟨List.mem_map_of_mem _ hc, ?_⟩
      rw [hbp]
      exact (any_sentinel_map container base_url fields).mpr hex
  · intro p hp
    rw [hbp]
    exact dictGet_fields_map container base_url fields p hnd hp

theorem claim_C1_witness :
    (buildProduct cardDiv [("title", titleSpec)] "https://x.example/"
        ∈ extract_products docOne "card" [("title", titleSpec)] "https://x.example/")
    ∧ dictGet (buildProduct cardDiv [("title", titleSpec)] "https://x.example/") "title"
        = some (extractFieldSafe cardDiv titleSpec "https://x.example/") := by
  have h := claim_C1 docOne "card" "https://x.example/" [("title", titleSpec)] (by decide)
      cardDiv (show cardDiv ∈ [cardDiv] from List.mem_singleton.mpr rfl)
  exact ⟨h.1.mpr ⟨("title", titleSpec), List.mem_singleton.mpr rfl, by decide⟩,
    h.2 ("title", titleSpec) (List.mem_singleton.mpr rfl)⟩

/-- C2: field extraction never escapes the per-field handler — an error from
`_extract_field_value` becomes the sentinel for that field alone — and each
record entry is a function of its own field spec only, so sibling fields and
other containers are unaffected. -/
theorem claim_C2 (container : HtmlNode) (base_url : String)
    (fields : List (String × FieldSpec)) (hnd : (fields.map Prod.fst).Nodup) :
    (∀ p ∈ fields, ∀ err, extractFieldValue container p.2 base_url = .error err →
        extractFieldSafe container p.2 base_url = "N/A")
    ∧ buildProduct container fields base_url
        = fields.map (fun p => (p.1, extractFieldSafe container p.2 base_url)) := by
  refine ⟨?_, buildProduct_eq_map container base_url fields hnd⟩
  intro p _ err herr
  unfold extractFieldSafe
  rw [herr]

theorem claim_C2_witness :
    buildProduct cardDiv [("bad", badIndexSpec), ("title", titleSpec)] "https://x.example/"
      = [("bad", "N/A"), ("title", "hello")]
    ∧ extractFieldSafe cardDiv badIndexSpec "https://x.example/" = "N/A" := by
  have h := claim_C2 cardDiv "https://x.example/"
      [("bad", badIndexSpec), ("title", titleSpec)] (by decide)
  constructor
  · rw [h.2]
    rfl
  · exact h.1 ("bad", badIndexSpec) (List.mem_cons_self _ _)
      "IndexError: list index out of range" rfl

/-- C7: every record of the extraction session carries exactly the configured
field keys plus the three provenance keys, and `_config_used` is the
configuration name, or `default_config` when the configuration has none. -/
theorem claim_C7 (soup : HtmlNode) (config : RawConfig) (url scraped_at : String)
    (record : PyDict) (hrec : record ∈ scrape_products_core soup config url scraped_at) :
    (∀ k, hasKey record k = true ↔
        ((∃ p ∈ (config.fields).getD [], p.1 = k)
          ∨ k = "_source_url" ∨ k = "_scraped_at" ∨ k = "_config_used"))
    ∧ dictGet record "_config_used"
        = some (match config.name with
                | some n => n
                | none => "default_config") := by
  unfold scrape_products_core at hrec
  rcases List.mem_map.mp hrec with ⟨product, hprod, rfl⟩
  constructor
  · intro k
    rw [hasKey_attachMetadata]
    unfold extract_products at hprod
    rcases List.mem_filter.mp hprod with ⟨hmem, -⟩
    rcases List.mem_map.mp hmem with ⟨container, -, rfl⟩
    rw [hasKey_buildProduct]
    simp [List.any_eq_true, or_assoc]
  · exact dictGet_dictSet_self _ _ _

theorem claim_C7_witness :
    dictGet [("title", "hello"), ("_source_url", "u"), ("_scraped_at", "t"),
        ("_config_used", "default_config")] "_config_used"
      = some "default_config" :=
  (claim_C7 docOne { container_class := some "card", fields := some [("title", titleSpec)] }
      "u" "t"
      [("title", "hello"), ("_source_url", "u"), ("_scraped_at", "t"),
        ("_config_used", "default_config")]
      (by decide)).2
